import Mathlib

/-!
Shallow embedding of the `useTemporalState` undo/redo engine from
`src/index.ts`.  The source file holds two implementation variants of the
same hook: the first (lines 13-77) performs its updates inside React
functional updaters, the second (lines 92-173) reads the rendered values
directly.  Both are embedded below as pure transition functions over the
triple `(past, present, future)`; the configuration (`limit`,
`shouldAddToHistory`) is passed as explicit parameters.
-/

namespace Temporal

variable {T : Type}

/-- The state owned by one `useTemporalState` store: `past` (oldest first),
the single `present` value, and `future` (nearest future first).  Mirrors
the three `useState` cells at lines 19-21 / 100-102 of `src/index.ts`. -/
structure TState (T : Type) where
  past : List T
  present : T
  future : List T
deriving DecidableEq

/-- A freshly constructed store: `past`/`future` empty, `present` at the
caller-supplied initial value. -/
def initial (v : T) : TState T := ⟨[], v, []⟩

/-- The argument of `set`: either a plain value or a functional updater,
mirroring the TypeScript union `T | ((prev: T) => T)`. -/
inductive Update (T : Type) where
  | value : T → Update T
  | updater : (T → T) → Update T

/-- Resolution of a `set` argument against the current present, mirroring
`typeof newState === "function" ? newState(prev) : newState`. -/
def resolve (u : Update T) (p : T) : T :=
  match u with
  | .value v => v
  | .updater f => f p

/-- JavaScript `xs.slice(-n)` for a natural `n`.  For `n = 0` the start
index `-0` is `0`, so the whole array is returned; for `n > 0` the last
`min n xs.length` elements are kept. -/
def sliceNeg (xs : List T) (n : Nat) : List T :=
  if n = 0 then xs else xs.drop (xs.length - n)

/-- The history-trimming step used by both variants of `set` and `redo`:
`updated.length > limit ? updated.slice(-limit) : updated`
(lines 35, 62, 126, 158 of `src/index.ts`). -/
def trimTo (lim : Nat) (xs : List T) : List T :=
  if xs.length > lim then sliceNeg xs lim else xs

/-- `state` read of the hook: the current present. -/
def state (s : TState T) : T := s.present

/-- `canUndo: past.length > 0` (lines 74 / 170). -/
def canUndo (s : TState T) : Bool := decide (s.past.length > 0)

/-- `canRedo: future.length > 0` (lines 75 / 171). -/
def canRedo (s : TState T) : Bool := decide (s.future.length > 0)

namespace V1

/-- `set` of the first variant (lines 23-43).  The `setPresent` updater
resolves the candidate, and when `shouldAddToHistory(prevPresent, next)` is
false it returns `prevPresent`: nothing changes at all.  Otherwise it
pushes the old present onto `past` (trimmed), clears `future`, and adopts
the candidate. -/
def set (sh : T → T → Bool) (lim : Nat) (s : TState T) (u : Update T) : TState T :=
  let next := resolve u s.present
  if !sh s.present next then s
  else { past := trimTo lim (s.past ++ [s.present]), present := next, future := [] }

/-- `undo` of the first variant (lines 45-54): no-op on empty past,
otherwise drop the last past entry, push the present onto the front of
future, and adopt that last entry. -/
def undo (s : TState T) : TState T :=
  match s.past.getLast? with
  | none => s
  | some lastState =>
    { past := s.past.dropLast, present := lastState, future := s.present :: s.future }

/-- `redo` of the first variant (lines 56-67): no-op on empty future,
otherwise pop the first future entry, push the present onto past (with the
same trimming as `set`), and adopt that entry. -/
def redo (lim : Nat) (s : TState T) : TState T :=
  match s.future with
  | [] => s
  | nextState :: restFuture =>
    { past := trimTo lim (s.past ++ [s.present]), present := nextState, future := restFuture }

end V1

namespace V2

/-- `set` of the second variant (lines 109-133).  When
`shouldAddToHistory(present, next)` is false it still calls
`setPresent(next)` (line 119), leaving past and future untouched;
otherwise it behaves like the first variant. -/
def set (sh : T → T → Bool) (lim : Nat) (s : TState T) (u : Update T) : TState T :=
  let next := resolve u s.present
  if !sh s.present next then { s with present := next }
  else { past := trimTo lim (s.past ++ [s.present]), present := next, future := [] }

/-- `undo` of the second variant (lines 138-147); textually the same
transition as the first variant's. -/
def undo (s : TState T) : TState T :=
  match s.past.getLast? with
  | none => s
  | some lastState =>
    { past := s.past.dropLast, present := lastState, future := s.present :: s.future }

/-- `redo` of the second variant (lines 152-163); textually the same
transition as the first variant's. -/
def redo (lim : Nat) (s : TState T) : TState T :=
  match s.future with
  | [] => s
  | nextState :: restFuture =>
    { past := trimTo lim (s.past ++ [s.present]), present := nextState, future := restFuture }

end V2

/-- One operation of the engine, for reasoning about operation sequences. -/
inductive Op (T : Type) where
  | doSet : Update T → Op T
  | doUndo : Op T
  | doRedo : Op T

/-- One step of the first variant. -/
def stepOp1 (sh : T → T → Bool) (lim : Nat) (s : TState T) : Op T → TState T
  | .doSet u => V1.set sh lim s u
  | .doUndo => V1.undo s
  | .doRedo => V1.redo lim s

/-- One step of the second variant. -/
def stepOp2 (sh : T → T → Bool) (lim : Nat) (s : TState T) : Op T → TState T
  | .doSet u => V2.set sh lim s u
  | .doUndo => V2.undo s
  | .doRedo => V2.redo lim s

/-- Run a sequence of operations through the first variant. -/
def runOps1 (sh : T → T → Bool) (lim : Nat) (s : TState T) (ops : List (Op T)) : TState T :=
  ops.foldl (stepOp1 sh lim) s

/-- Run a sequence of operations through the second variant. -/
def runOps2 (sh : T → T → Bool) (lim : Nat) (s : TState T) (ops : List (Op T)) : TState T :=
  ops.foldl (stepOp2 sh lim) s

/-- A recording predicate that always records (always true). -/
def alwaysAdd : T → T → Bool := fun _ _ => true

/-- A recording predicate that never records (always false), as in the
repository's own test `shouldAddToHistory: (prev, next) => false`. -/
def neverAdd : T → T → Bool := fun _ _ => false

/-- A run of `set` calls through the first variant with the always-true
recording predicate, one call per listed value. -/
def applySets (lim : Nat) (s : TState T) (vs : List T) : TState T :=
  vs.foldl (fun st v => V1.set alwaysAdd lim st (Update.value v)) s

/-- The whole timeline of a store, oldest first: `past ++ [present] ++ future`. -/
def timeline (s : TState T) : List T := s.past ++ s.present :: s.future

/-- With a positive limit, trimming yields exactly `min length limit`
elements. -/
lemma trimTo_length {lim : Nat} (hlim : 1 ≤ lim) (xs : List T) :
    (trimTo lim xs).length = min xs.length lim := by
  unfold trimTo sliceNeg
  split
  · have hl : ¬lim = 0 := by omega
    simp only [hl, if_false, List.length_drop]
    omega
  · omega

/-- Trimming a list ending in `a` keeps `a` as its last element, for every
limit (including the `slice(-0)` case). -/
lemma trimTo_getLast (lim : Nat) (xs : List T) (a : T) :
    (trimTo lim (xs ++ [a])).getLast? = some a := by
  unfold trimTo sliceNeg
  split
  · split
    · exact List.getLast?_concat xs
    · have hk : (xs ++ [a]).length - lim ≤ xs.length := by
        simp only [List.length_append, List.length_singleton]
        omega
      rw [List.drop_append_of_le_length hk, List.getLast?_concat]
  · exact List.getLast?_concat xs

/-- The two variants' `undo` transitions are the same function. -/
lemma undo2_eq_undo1 (s : TState T) : V2.undo s = V1.undo s := rfl

/-- The two variants' `redo` transitions are the same function. -/
lemma redo2_eq_redo1 (lim : Nat) (s : TState T) : V2.redo lim s = V1.redo lim s := rfl

/-- `undo` always shortens `past` by one (truncated at zero). -/
lemma undo1_past_length (s : TState T) : (V1.undo s).past.length = s.past.length - 1 := by
  unfold V1.undo
  cases h : s.past.getLast? with
  | none =>
    rw [List.getLast?_eq_none_iff] at h
    simp [h]
  | some lastState => simp [List.length_dropLast]

/-- Iterated `undo` shortens `past` by the iteration count. -/
lemma undo1_iter_past_length (k : Nat) (s : TState T) :
    ((V1.undo)^[k] s).past.length = s.past.length - k := by
  induction k with
  | zero => simp
  | succ n ih =>
    rw [Function.iterate_succ_apply', undo1_past_length, ih]
    omega

/-- `undo` on an empty past is the identity. -/
lemma undo1_of_past_nil {s : TState T} (h : s.past = []) : V1.undo s = s := by
  unfold V1.undo
  simp [h]

/-- A recorded `set` (variant 1) gives `past` exactly `min (old + 1) limit`
entries, for a positive limit. -/
lemma set1_past_length {sh : T → T → Bool} {lim : Nat} (hlim : 1 ≤ lim)
    (s : TState T) (u : Update T) (h : sh s.present (resolve u s.present) = true) :
    (V1.set sh lim s u).past.length = min (s.past.length + 1) lim := by
  unfold V1.set
  simp only [h, Bool.not_true, Bool.false_eq_true, if_false]
  rw [trimTo_length hlim]
  simp

/-- Each variant-1 operation preserves `|past| ≤ limit` for a positive
limit. -/
lemma stepOp1_past_le {sh : T → T → Bool} {lim : Nat} (hlim : 1 ≤ lim) {s : TState T}
    (hs : s.past.length ≤ lim) (o : Op T) : (stepOp1 sh lim s o).past.length ≤ lim := by
  cases o with
  | doSet u =>
    cases hb : sh s.present (resolve u s.present) with
    | false => simpa [stepOp1, V1.set, hb] using hs
    | true =>
      rw [show stepOp1 sh lim s (Op.doSet u) = V1.set sh lim s u from rfl,
        set1_past_length hlim s u hb]
      omega
  | doUndo =>
    rw [show stepOp1 sh lim s Op.doUndo = V1.undo s from rfl, undo1_past_length]
    omega
  | doRedo =>
    cases hf : s.future with
    | nil => simpa [stepOp1, V1.redo, hf] using hs
    | cons nextState restFuture =>
      simp only [stepOp1, V1.redo, hf]
      rw [trimTo_length hlim]
      simp only [List.length_append, List.length_singleton]
      omega

/-- Each variant-2 operation preserves `|past| ≤ limit` for a positive
limit. -/
lemma stepOp2_past_le {sh : T → T → Bool} {lim : Nat} (hlim : 1 ≤ lim) {s : TState T}
    (hs : s.past.length ≤ lim) (o : Op T) : (stepOp2 sh lim s o).past.length ≤ lim := by
  cases o with
  | doSet u =>
    cases hb : sh s.present (resolve u s.present) with
    | false => simpa [stepOp2, V2.set, hb] using hs
    | true =>
      simp only [stepOp2, V2.set, hb, Bool.not_true, Bool.false_eq_true, if_false]
      rw [trimTo_length hlim]
      simp only [List.length_append, List.length_singleton]
      omega
  | doUndo =>
    rw [show stepOp2 sh lim s Op.doUndo = V2.undo s from rfl, undo2_eq_undo1,
      undo1_past_length]
    omega
  | doRedo =>
    rw [show stepOp2 sh lim s Op.doRedo = V2.redo lim s from rfl, redo2_eq_redo1]
    cases hf : s.future with
    | nil => simpa [V1.redo, hf] using hs
    | cons nextState restFuture =>
      simp only [V1.redo, hf]
      rw [trimTo_length hlim]
      simp only [List.length_append, List.length_singleton]
      omega

/-- Running any operation sequence through variant 1 preserves
`|past| ≤ limit` for a positive limit. -/
lemma runOps1_past_le {sh : T → T → Bool} {lim : Nat} (hlim : 1 ≤ lim)
    (ops : List (Op T)) {s : TState T} (hs : s.past.length ≤ lim) :
    (runOps1 sh lim s ops).past.length ≤ lim := by
  induction ops generalizing s with
  | nil => simpa [runOps1] using hs
  | cons o rest ih =>
    rw [show runOps1 sh lim s (o :: rest) = runOps1 sh lim (stepOp1 sh lim s o) rest from rfl]
    exact ih (stepOp1_past_le hlim hs o)

/-- Running any operation sequence through variant 2 preserves
`|past| ≤ limit` for a positive limit. -/
lemma runOps2_past_le {sh : T → T → Bool} {lim : Nat} (hlim : 1 ≤ lim)
    (ops : List (Op T)) {s : TState T} (hs : s.past.length ≤ lim) :
    (runOps2 sh lim s ops).past.length ≤ lim := by
  induction ops generalizing s with
  | nil => simpa [runOps2] using hs
  | cons o rest ih =>
    rw [show runOps2 sh lim s (o :: rest) = runOps2 sh lim (stepOp2 sh lim s o) rest from rfl]
    exact ih (stepOp2_past_le hlim hs o)

/-- After a run of always-recorded `set` calls, `past` holds
`min (old + count) limit` entries, for a positive limit. -/
lemma applySets_past_length {lim : Nat} (hlim : 1 ≤ lim) (vs : List T)
    {s : TState T} (hs : s.past.length ≤ lim) :
    (applySets lim s vs).past.length = min (s.past.length + vs.length) lim := by
  induction vs generalizing s with
  | nil =>
    simp only [applySets, List.foldl_nil, List.length_nil, Nat.add_zero]
    omega
  | cons v rest ih =>
    rw [show applySets lim s (v :: rest)
        = applySets lim (V1.set alwaysAdd lim s (Update.value v)) rest from rfl]
    have hstep : (V1.set alwaysAdd lim s (Update.value v)).past.length
        = min (s.past.length + 1) lim := set1_past_length hlim s (Update.value v) rfl
    rw [ih (by rw [hstep]; omega), hstep]
    simp only [List.length_cons]
    omega

/-- On a non-empty past, variant-1 `undo` drops the last past entry,
adopts it, and pushes the old present onto future. -/
lemma undo1_eq_of_ne_nil {s : TState T} (h : s.past ≠ []) :
    V1.undo s = { past := s.past.dropLast, present := s.past.getLast h,
                  future := s.present :: s.future } := by
  unfold V1.undo
  rw [List.getLast?_eq_getLast_of_ne_nil h]

/-- Claim C1 (code evaluated at the failing input): with the repository's
own test predicate `(prev, next) => false`, `set(1)` from a fresh store at
`0` leaves variant 1's state at `0` — the candidate is not adopted — while
variant 2 adopts `1` with `canUndo` still false, as the test expects. -/
theorem c1_set_unrecorded_eval :
    state (V1.set neverAdd 50 (initial (0 : Nat)) (Update.value 1)) = 0 ∧
    state (V2.set neverAdd 50 (initial (0 : Nat)) (Update.value 1)) = 1 ∧
    canUndo (V2.set neverAdd 50 (initial (0 : Nat)) (Update.value 1)) = false ∧
    (V2.set neverAdd 50 (initial (0 : Nat)) (Update.value 1)).future = [] := by
  decide

/-- Claim C2 counterexample: with an always-false recording predicate, a
single `set(1)` from a fresh store at `0` produces different states under
the two implementation variants. -/
theorem c2_variants_differ :
    V1.set neverAdd 50 (initial (0 : Nat)) (Update.value 1)
      ≠ V2.set neverAdd 50 (initial (0 : Nat)) (Update.value 1) := by
  decide

/-- Claim C2 (amended): the two variants agree on `undo` and `redo` for
every state, and on `set` whenever the recording predicate accepts the
candidate; when it rejects, both leave past and future unchanged, but
variant 1 keeps the old present while variant 2 adopts the candidate, so
there they agree only when the candidate equals the present. -/
theorem c2_variants_agree (sh : T → T → Bool) (lim : Nat) (s : TState T) (u : Update T) :
    V1.undo s = V2.undo s ∧ V1.redo lim s = V2.redo lim s ∧
    (sh s.present (resolve u s.present) = true → V1.set sh lim s u = V2.set sh lim s u) ∧
    (sh s.present (resolve u s.present) = false →
      V1.set sh lim s u = s ∧
      V2.set sh lim s u = { s with present := resolve u s.present }) := by
  refine ⟨rfl, rfl, ?_, ?_⟩
  · intro h
    simp [V1.set, V2.set, h]
  · intro h
    constructor <;> simp [V1.set, V2.set, h]

/-- Witness for C2 at a concrete input: the rejecting branch with the
always-false predicate. -/
theorem c2_variants_agree_witness :
    neverAdd (0 : Nat) 1 = false ∧
    V1.set neverAdd 50 (initial (0 : Nat)) (Update.value 1) = initial 0 ∧
    V2.set neverAdd 50 (initial (0 : Nat)) (Update.value 1)
      = { initial (0 : Nat) with present := resolve (Update.value 1) (initial (0 : Nat)).present } :=
  ⟨rfl, ((c2_variants_agree neverAdd 50 (initial 0) (Update.value 1)).2.2.2 rfl).1,
    ((c2_variants_agree neverAdd 50 (initial 0) (Update.value 1)).2.2.2 rfl).2⟩

/-- Claim C7 counterexample: with limit 0 and an always-true predicate, a
single recorded `set` leaves a non-empty past and `canUndo = true`, in
both variants — nothing is evicted. -/
theorem c7_limit_zero_cex :
    alwaysAdd (0 : Nat) 1 = true ∧
    (V1.set alwaysAdd 0 (initial (0 : Nat)) (Update.value 1)).past = [0] ∧
    canUndo (V1.set alwaysAdd 0 (initial (0 : Nat)) (Update.value 1)) = true ∧
    (V2.set alwaysAdd 0 (initial (0 : Nat)) (Update.value 1)).past = [0] ∧
    canUndo (V2.set alwaysAdd 0 (initial (0 : Nat)) (Update.value 1)) = true := by
  decide

/-- Claim C7 (amended): with limit 0, JavaScript `slice(-0)` is `slice(0)`
and returns the whole array, so a recorded `set` evicts nothing: past
grows by one entry and `canUndo` becomes true, in both variants. -/
theorem c7_limit_zero (sh : T → T → Bool) (s : TState T) (u : Update T)
    (h : sh s.present (resolve u s.present) = true) :
    (V1.set sh 0 s u).past = s.past ++ [s.present] ∧
    canUndo (V1.set sh 0 s u) = true ∧
    (V2.set sh 0 s u).past = s.past ++ [s.present] ∧
    canUndo (V2.set sh 0 s u) = true := by
  have ht : trimTo 0 (s.past ++ [s.present]) = s.past ++ [s.present] := by
    unfold trimTo sliceNeg
    simp
  refine ⟨by simp [V1.set, h, ht], ?_, by simp [V2.set, h, ht], ?_⟩ <;>
    simp [V1.set, V2.set, canUndo, h, ht]

/-- Witness for C7 at a concrete input. -/
theorem c7_limit_zero_witness :
    alwaysAdd (0 : Nat) 1 = true ∧
    ((V1.set alwaysAdd 0 (initial (0 : Nat)) (Update.value 1)).past
        = (initial (0 : Nat)).past ++ [(initial (0 : Nat)).present] ∧
     canUndo (V1.set alwaysAdd 0 (initial (0 : Nat)) (Update.value 1)) = true ∧
     (V2.set alwaysAdd 0 (initial (0 : Nat)) (Update.value 1)).past
        = (initial (0 : Nat)).past ++ [(initial (0 : Nat)).present] ∧
     canUndo (V2.set alwaysAdd 0 (initial (0 : Nat)) (Update.value 1)) = true) :=
  ⟨rfl, c7_limit_zero alwaysAdd (initial 0) (Update.value 1) rfl⟩

/-- Claim C9: `undo` on an empty past and `redo` on an empty future leave
the whole store (hence state, canUndo, canRedo) unchanged, in both
variants; both are total, signalling nothing. -/
theorem c9_noop_idempotence (lim : Nat) (s : TState T) :
    (s.past = [] → V1.undo s = s ∧ V2.undo s = s) ∧
    (s.future = [] → V1.redo lim s = s ∧ V2.redo lim s = s) := by
  constructor
  · intro h
    refine ⟨undo1_of_past_nil h, ?_⟩
    rw [undo2_eq_undo1]
    exact undo1_of_past_nil h
  · intro h
    constructor <;> simp [V1.redo, V2.redo, h]

/-- Witness for C9 at a concrete input: a fresh store. -/
theorem c9_noop_idempotence_witness :
    ((initial (0 : Nat)).past = [] ∧ (initial (0 : Nat)).future = []) ∧
    (V1.undo (initial (0 : Nat)) = initial 0 ∧ V2.undo (initial (0 : Nat)) = initial 0) ∧
    (V1.redo 50 (initial (0 : Nat)) = initial 0 ∧ V2.redo 50 (initial (0 : Nat)) = initial 0) :=
  ⟨⟨rfl, rfl⟩, (c9_noop_idempotence 50 (initial 0)).1 rfl,
    (c9_noop_idempotence 50 (initial 0)).2 rfl⟩

/-- Claim C8: on a non-empty past, `undo` removes the last element of
past, adopts it as present, and pushes the old present onto the front of
future; past shrinks by exactly one, future grows by exactly one and is
never trimmed; both variants act identically. -/
theorem c8_undo_shape (s : TState T) (h : s.past ≠ []) :
    (V1.undo s).past = s.past.dropLast ∧
    (V1.undo s).present = s.past.getLast h ∧
    (V1.undo s).future = s.present :: s.future ∧
    (V1.undo s).past.length + 1 = s.past.length ∧
    (V1.undo s).future.length = s.future.length + 1 ∧
    V2.undo s = V1.undo s := by
  have hpos : 0 < s.past.length := List.length_pos.mpr h
  rw [undo2_eq_undo1, undo1_eq_of_ne_nil h]
  refine ⟨rfl, rfl, rfl, ?_, rfl, rfl⟩
  simp only [List.length_dropLast]
  omega

/-- Witness for C8 at a concrete input. -/
theorem c8_undo_shape_witness :
    ((⟨[0], 1, [2]⟩ : TState Nat).past ≠ []) ∧
    ((V1.undo (⟨[0], 1, [2]⟩ : TState Nat)).past
        = (⟨[0], 1, [2]⟩ : TState Nat).past.dropLast ∧
     (V1.undo (⟨[0], 1, [2]⟩ : TState Nat)).present
        = (⟨[0], 1, [2]⟩ : TState Nat).past.getLast (by decide) ∧
     (V1.undo (⟨[0], 1, [2]⟩ : TState Nat)).future
        = (⟨[0], 1, [2]⟩ : TState Nat).present :: (⟨[0], 1, [2]⟩ : TState Nat).future ∧
     (V1.undo (⟨[0], 1, [2]⟩ : TState Nat)).past.length + 1
        = (⟨[0], 1, [2]⟩ : TState Nat).past.length ∧
     (V1.undo (⟨[0], 1, [2]⟩ : TState Nat)).future.length
        = (⟨[0], 1, [2]⟩ : TState Nat).future.length + 1 ∧
     V2.undo (⟨[0], 1, [2]⟩ : TState Nat) = V1.undo (⟨[0], 1, [2]⟩ : TState Nat)) :=
  ⟨by decide, c8_undo_shape (⟨[0], 1, [2]⟩ : TState Nat) (by decide)⟩

/-- Claim C10: `undo` preserves the concatenated timeline
`past ++ [present] ++ future` element for element; `redo` preserves it
whenever `|past| < limit`; in both variants. -/
theorem c10_timeline_preserved (lim : Nat) (s : TState T) :
    timeline (V1.undo s) = timeline s ∧
    timeline (V2.undo s) = timeline s ∧
    (s.past.length < lim →
      timeline (V1.redo lim s) = timeline s ∧ timeline (V2.redo lim s) = timeline s) := by
  have hundo : timeline (V1.undo s) = timeline s := by
    rcases eq_or_ne s.past [] with h | h
    · rw [undo1_of_past_nil h]
    · rw [undo1_eq_of_ne_nil h]
      unfold timeline
      conv_rhs => rw [← List.dropLast_append_getLast h]
      simp
  have hredo : s.past.length < lim → timeline (V1.redo lim s) = timeline s := by
    intro hlt
    cases hf : s.future with
    | nil => simp [V1.redo, hf]
    | cons nextState restFuture =>
      have ht : trimTo lim (s.past ++ [s.present]) = s.past ++ [s.present] := by
        unfold trimTo
        have hn : ¬(s.past ++ [s.present]).length > lim := by
          simp only [List.length_append, List.length_singleton]
          omega
        rw [if_neg hn]
      simp [V1.redo, hf, ht, timeline]
  exact ⟨hundo, by rw [undo2_eq_undo1]; exact hundo,
    fun hlt => ⟨hredo hlt, by rw [redo2_eq_redo1]; exact hredo hlt⟩⟩

/-- Witness for C10 at a concrete input with `|past| < limit`. -/
theorem c10_timeline_preserved_witness :
    ((⟨[0], 1, [2]⟩ : TState Nat).past.length < 50) ∧
    (timeline (V1.undo (⟨[0], 1, [2]⟩ : TState Nat)) = timeline (⟨[0], 1, [2]⟩ : TState Nat) ∧
     timeline (V2.undo (⟨[0], 1, [2]⟩ : TState Nat)) = timeline (⟨[0], 1, [2]⟩ : TState Nat) ∧
     ((⟨[0], 1, [2]⟩ : TState Nat).past.length < 50 →
       timeline (V1.redo 50 (⟨[0], 1, [2]⟩ : TState Nat)) = timeline (⟨[0], 1, [2]⟩ : TState Nat) ∧
       timeline (V2.redo 50 (⟨[0], 1, [2]⟩ : TState Nat)) = timeline (⟨[0], 1, [2]⟩ : TState Nat))) :=
  ⟨by decide, c10_timeline_preserved 50 (⟨[0], 1, [2]⟩ : TState Nat)⟩

/-- Claim C4: every recorded `set` clears future, in both variants; hence
after `set(a); undo(); set(b)` with a predicate accepting both recorded
sets, `canRedo = false`. -/
theorem c4_future_cleared (sh : T → T → Bool) (lim : Nat) (s : TState T)
    (u : Update T) (a b : T)
    (hu : sh s.present (resolve u s.present) = true)
    (ha : sh s.present a = true) (hb : sh s.present b = true) :
    (V1.set sh lim s u).future = [] ∧ (V2.set sh lim s u).future = [] ∧
    canRedo (V1.set sh lim (V1.undo (V1.set sh lim s (Update.value a)))
      (Update.value b)) = false := by
  refine ⟨by simp [V1.set, hu], by simp [V2.set, hu], ?_⟩
  have hs1 : V1.set sh lim s (Update.value a)
      = { past := trimTo lim (s.past ++ [s.present]), present := a, future := [] } := by
    simp [V1.set, resolve, ha]
  rw [hs1]
  have hu2 : V1.undo
        ({ past := trimTo lim (s.past ++ [s.present]), present := a, future := [] } : TState T)
      = { past := (trimTo lim (s.past ++ [s.present])).dropLast, present := s.present,
          future := [a] } := by
    unfold V1.undo
    dsimp only
    rw [trimTo_getLast lim s.past s.present]
  rw [hu2]
  simp [V1.set, resolve, canRedo, hb]

/-- Witness for C4 at a concrete input. -/
theorem c4_future_cleared_witness :
    (alwaysAdd (0 : Nat) 5 = true ∧ alwaysAdd (0 : Nat) 1 = true ∧ alwaysAdd (0 : Nat) 2 = true) ∧
    ((V1.set alwaysAdd 50 (initial (0 : Nat)) (Update.value 5)).future = [] ∧
     (V2.set alwaysAdd 50 (initial (0 : Nat)) (Update.value 5)).future = [] ∧
     canRedo (V1.set alwaysAdd 50 (V1.undo (V1.set alwaysAdd 50 (initial (0 : Nat))
       (Update.value 1))) (Update.value 2)) = false) :=
  ⟨⟨rfl, rfl, rfl⟩,
    c4_future_cleared alwaysAdd 50 (initial 0) (Update.value 5) 1 2 rfl rfl rfl⟩

/-- Claim C5: when the predicate records `set(x)`, a following `undo`
restores the pre-set present and puts `x` at the front of future, and a
further `redo` makes the present exactly `x` again. -/
theorem c5_round_trip (sh : T → T → Bool) (lim : Nat) (s : TState T) (x : T)
    (h : sh s.present x = true) :
    state (V1.undo (V1.set sh lim s (Update.value x))) = s.present ∧
    (V1.undo (V1.set sh lim s (Update.value x))).future.head? = some x ∧
    state (V1.redo lim (V1.undo (V1.set sh lim s (Update.value x)))) = x := by
  have hs1 : V1.set sh lim s (Update.value x)
      = { past := trimTo lim (s.past ++ [s.present]), present := x, future := [] } := by
    simp [V1.set, resolve, h]
  rw [hs1]
  have hu2 : V1.undo
        ({ past := trimTo lim (s.past ++ [s.present]), present := x, future := [] } : TState T)
      = { past := (trimTo lim (s.past ++ [s.present])).dropLast, present := s.present,
          future := [x] } := by
    unfold V1.undo
    dsimp only
    rw [trimTo_getLast lim s.past s.present]
  rw [hu2]
  exact ⟨rfl, rfl, rfl⟩

/-- Witness for C5 at a concrete input. -/
theorem c5_round_trip_witness :
    alwaysAdd (0 : Nat) 7 = true ∧
    (state (V1.undo (V1.set alwaysAdd 50 (initial (0 : Nat)) (Update.value 7))) = 0 ∧
     (V1.undo (V1.set alwaysAdd 50 (initial (0 : Nat)) (Update.value 7))).future.head? = some 7 ∧
     state (V1.redo 50 (V1.undo (V1.set alwaysAdd 50 (initial (0 : Nat))
       (Update.value 7)))) = 7) :=
  ⟨rfl, c5_round_trip alwaysAdd 50 (initial 0) 7 rfl⟩

/-- Claim C3: with a positive limit, `|past| ≤ limit` holds after every
operation sequence run from a fresh store, in both variants; and whenever
a push makes the list longer than the limit, trimming drops exactly the
front (oldest) entries, keeping the last `limit` ones. -/
theorem c3_past_bounded (sh : T → T → Bool) (lim : Nat) (v0 : T)
    (ops : List (Op T)) (xs : List T) (hlim : 1 ≤ lim) :
    (runOps1 sh lim (initial v0) ops).past.length ≤ lim ∧
    (runOps2 sh lim (initial v0) ops).past.length ≤ lim ∧
    (xs.length > lim → trimTo lim xs = xs.drop (xs.length - lim)) := by
  refine ⟨runOps1_past_le hlim ops (by simp [initial]),
    runOps2_past_le hlim ops (by simp [initial]), ?_⟩
  intro hx
  unfold trimTo sliceNeg
  have hz : ¬lim = 0 := by omega
  simp [hx, hz]

/-- Witness for C3 at a concrete input. -/
theorem c3_past_bounded_witness :
    1 ≤ 2 ∧
    ((runOps1 alwaysAdd 2 (initial (0 : Nat))
        [Op.doSet (Update.value 1), Op.doSet (Update.value 2),
          Op.doSet (Update.value 3)]).past.length ≤ 2 ∧
     (runOps2 alwaysAdd 2 (initial (0 : Nat))
        [Op.doSet (Update.value 1), Op.doSet (Update.value 2),
          Op.doSet (Update.value 3)]).past.length ≤ 2 ∧
     (([1, 2, 3] : List Nat).length > 2 →
       trimTo 2 ([1, 2, 3] : List Nat)
         = ([1, 2, 3] : List Nat).drop (([1, 2, 3] : List Nat).length - 2))) :=
  ⟨by decide,
    c3_past_bounded alwaysAdd 2 0
      [Op.doSet (Update.value 1), Op.doSet (Update.value 2), Op.doSet (Update.value 3)]
      [1, 2, 3] (by decide)⟩

/-- Claim C6: after `n ≥ 1` always-recorded `set` calls with
pairwise-distinct values from a fresh store with positive limit,
`canUndo = true`, `past` holds exactly `min n limit` entries, each of the
first `min n limit` undos still finds `canUndo = true`, and after
`min n limit` undos `canUndo = false` and a further `undo` is a no-op. -/
theorem c6_min_recoverable (lim : Nat) (v0 : T) (vs : List T)
    (hlim : 1 ≤ lim) (hne : vs ≠ [])
    (_hdist : vs.Pairwise (fun a b => a ≠ b)) :
    canUndo (applySets lim (initial v0) vs) = true ∧
    (applySets lim (initial v0) vs).past.length = min vs.length lim ∧
    (∀ k, k < min vs.length lim →
      canUndo ((V1.undo)^[k] (applySets lim (initial v0) vs)) = true) ∧
    canUndo ((V1.undo)^[min vs.length lim] (applySets lim (initial v0) vs)) = false ∧
    V1.undo ((V1.undo)^[min vs.length lim] (applySets lim (initial v0) vs))
      = (V1.undo)^[min vs.length lim] (applySets lim (initial v0) vs) := by
  have hlen : (applySets lim (initial v0) vs).past.length = min vs.length lim := by
    have hh := applySets_past_length hlim vs (s := initial v0) (by simp [initial])
    simpa [initial] using hh
  have hvs : 1 ≤ vs.length := List.length_pos.mpr hne
  refine ⟨?_, hlen, ?_, ?_, ?_⟩
  · simp only [canUndo, hlen, decide_eq_true_eq]
    omega
  · intro k hk
    simp only [canUndo, undo1_iter_past_length, hlen, decide_eq_true_eq]
    omega
  · simp only [canUndo, undo1_iter_past_length, hlen, decide_eq_false_iff_not]
    omega
  · apply undo1_of_past_nil
    have hz : ((V1.undo)^[min vs.length lim] (applySets lim (initial v0) vs)).past.length = 0 := by
      rw [undo1_iter_past_length, hlen]
      omega
    exact List.length_eq_zero.mp hz

/-- Witness for C6 at a concrete input: limit 2, three distinct sets. -/
theorem c6_min_recoverable_witness :
    (1 ≤ 2 ∧ ([1, 2, 3] : List Nat) ≠ [] ∧
      ([1, 2, 3] : List Nat).Pairwise (fun a b => a ≠ b)) ∧
    (canUndo (applySets 2 (initial (0 : Nat)) [1, 2, 3]) = true ∧
     (applySets 2 (initial (0 : Nat)) [1, 2, 3]).past.length = min ([1, 2, 3] : List Nat).length 2 ∧
     (∀ k, k < min ([1, 2, 3] : List Nat).length 2 →
       canUndo ((V1.undo)^[k] (applySets 2 (initial (0 : Nat)) [1, 2, 3])) = true) ∧
     canUndo ((V1.undo)^[min ([1, 2, 3] : List Nat).length 2]
       (applySets 2 (initial (0 : Nat)) [1, 2, 3])) = false ∧
     V1.undo ((V1.undo)^[min ([1, 2, 3] : List Nat).length 2]
         (applySets 2 (initial (0 : Nat)) [1, 2, 3]))
       = (V1.undo)^[min ([1, 2, 3] : List Nat).length 2]
           (applySets 2 (initial (0 : Nat)) [1, 2, 3])) :=
  ⟨⟨by decide, by decide, by decide⟩,
    c6_min_recoverable 2 0 [1, 2, 3] (by decide) (by decide) (by decide)⟩

end Temporal
